import Mathlib

/-!
Shallow embedding of the `bitbelay` test/suite engine (crates
`bitbelay-statistics` and `bitbelay-tests`) used to check the natural-language
specification against the code.

Modelling conventions:

* Rust `f64` arithmetic is idealized as exact rational (`ℚ`) arithmetic.
  Where IEEE-754 special behaviour is load-bearing (NaN propagation, the
  `x == NAN` comparison, `0.0 / 0.0`), it is modelled explicitly: a float
  that may be NaN is `Flt := Option ℚ` with `none` standing for NaN, and
  comparisons are modelled so that every comparison involving NaN is false,
  exactly as in IEEE-754.
* `f64::sqrt` is modelled by `ratSqrt`, which is exact on perfect squares,
  positive on positive inputs and zero at zero — the only properties of
  `sqrt` the embedded code paths depend on.
* Rust panics (`panic!`, `.unwrap()` on an error) are modelled with
  `Except String`, the error carrying the panic message.
* Machine integers (`usize`, `u64`) are modelled as `ℕ`. The embedded
  quantities (bucket counters, bit tallies, digests) stay far below 2^64 in
  every property below; where a lossy cast is itself the point
  (`expected as isize` in `chi_squared_uniform`) it is modelled explicitly
  with `Int.floor`, which agrees with Rust's truncation toward zero because
  the operand there is a non-negative finite float.
-/

namespace Bitbelay

/-! ## IEEE-flavoured float model -/

/-- Model of an `f64` that may be NaN: `none` is NaN, `some q` is the finite
value `q`. -/
abbrev Flt : Type := Option ℚ

/-- Model of Rust's `f64::NAN`. -/
def fNaN : Flt := none

/-- Model of the IEEE `==` comparison on `f64`: any comparison involving NaN
is false (embeds `percentile == NAN` in `UniformPearsonTest::goodness_of_fit`,
src/bitbelay-statistics/src/chi_squared.rs line 162). -/
def feq : Flt → Flt → Bool
  | some a, some b => a == b
  | _, _ => false

/-- Model of the IEEE `>` comparison on `f64`: false when either side is NaN
(embeds `p_value > self.threshold` in the goodness-of-fit report path). -/
def fgt : Flt → Flt → Bool
  | some a, some b => b < a
  | _, _ => false

/-- Model of `f64` subtraction: NaN propagates. -/
def fsub : Flt → Flt → Flt
  | some a, some b => some (a - b)
  | _, _ => none

/-! ## Statistics primitives: chi-squared
(src/bitbelay-statistics/src/chi_squared.rs) -/

/-- Embedding of `chi_squared_uniform` (chi_squared.rs lines 51-64).

Two IEEE subtleties of the source are preserved:

* `expected < 5.0` — when `observations` is empty, `expected` is
  `0.0 / 0.0 = NaN` in Rust and the comparison is false, so the guard does
  NOT return `None`; the guard therefore fires exactly when the list is
  nonempty and the mean is below 5.  This is modelled by the explicit
  `observations.length ≠ 0` conjunct.
* `count as isize - expected as isize` — the expected value is truncated
  toward zero to an integer before the difference is taken.  On the branch
  where it is evaluated `expected ≥ 5 > 0`, so truncation toward zero is
  `Int.floor`, and the squared difference is computed in integer arithmetic
  before being divided by the (untruncated) `expected`. -/
def chi_squared_uniform (observations : List ℕ) : Option ℚ :=
  let expected : ℚ := (observations.sum : ℚ) / (observations.length : ℚ)
  if observations.length ≠ 0 ∧ expected < 5 then
    none
  else
    some (observations.foldl
      (fun acc (count : ℕ) => acc + ((((count : ℤ) - ⌊expected⌋ : ℤ) : ℚ) ^ 2) / expected)
      0)

/-- Spec-mandated statistic, written from the specification's words:
"let expected = (Σ counters)/B. If expected < 5, the statistic is undefined
(return "no result"). Otherwise χ² = Σ (observed−expected)²/expected" — with
the difference taken between real numbers, no truncation.  This definition
exists only to be compared against `chi_squared_uniform` above. -/
def chiSquaredSpecStatistic (observations : List ℕ) : Option ℚ :=
  let expected : ℚ := (observations.sum : ℚ) / (observations.length : ℚ)
  if observations.length ≠ 0 ∧ expected < 5 then
    none
  else
    some ((observations.map
      (fun (count : ℕ) => (((count : ℚ) - expected) ^ 2) / expected)).sum)

/-- Embedding of `UniformPearsonTest::goodness_of_fit`
(chi_squared.rs lines 146-167).  The CDF of the chi-squared distribution is
transcendental, so it is taken as a parameter `cdf df x` (`df` the degrees of
freedom, `x` the statistic); its value is a `Flt` because it may be NaN.
Faithfully embedded control flow:

* `chi_squared_uniform` returning `None` short-circuits to `Ok none`
  (the `?` operator);
* `ChiSquared::new(degrees_of_freedom)` fails for `df ≤ 0` (that is,
  `observations.length ≤ 1`) and the surrounding `unwrap_or_else` panics,
  modelled as `Except.error`;
* the `percentile == NAN` guard is the IEEE comparison `feq`, false for every
  operand pair involving NaN;
* the returned p-value is `1.0 - percentile`, NaN-propagating. -/
def goodness_of_fit (cdf : ℕ → ℚ → Flt) (observations : List ℕ) :
    Except String (Option Flt) :=
  match chi_squared_uniform observations with
  | none => .ok none
  | some chi_squared_statistic =>
    if observations.length < 2 then
      .error "could not create chi-squared distribution"
    else
      let percentile := cdf (observations.length - 1) chi_squared_statistic
      if feq percentile fNaN then
        .ok none
      else
        .ok (some (fsub (some 1) percentile))

/-! ## Statistics primitives: Pearson correlation
(src/bitbelay-statistics/src/correlation/pearson.rs) -/

/-- Idealized model of `f64::sqrt` on the values reachable in
`pearson::correlation`: exact on rationals that are squares of rationals,
positive on positive inputs, zero at zero and on (unreachable there) negative
inputs. -/
def ratSqrt (q : ℚ) : ℚ :=
  if q ≤ 0 then 0 else (Nat.sqrt q.num.toNat : ℚ) / (Nat.sqrt q.den : ℚ)

/-- Embedding of `pearson::correlation` (pearson.rs lines 68-91): guard on
mismatched lengths or emptiness, the five sums, the numerator/denominator of
the computational Pearson formula, and the `denom == 0.0` guard. -/
def correlation (a b : List ℚ) : Option ℚ :=
  if a.length ≠ b.length ∨ a.isEmpty then none
  else
    let sum_a : ℚ := a.sum
    let sum_b : ℚ := b.sum
    let sum_a_squared : ℚ := (a.map (fun x => x ^ 2)).sum
    let sum_b_squared : ℚ := (b.map (fun x => x ^ 2)).sum
    let sum_a_times_b : ℚ := ((a.zip b).map (fun p => p.1 * p.2)).sum
    let n : ℚ := (a.length : ℚ)
    let num := n * sum_a_times_b - sum_a * sum_b
    let denom := ratSqrt ((n * sum_a_squared - sum_a ^ 2) * (n * sum_b_squared - sum_b ^ 2))
    if denom = 0 then none
    else some (num / denom)

/-! ## Report verdict values
(src/bitbelay-report/src/section/test/module.rs, `module::Result`) -/

/-- Embedding of `module::Result`: the verdict carried by a report module. -/
inductive ModuleResult where
  | Pass
  | Inconclusive
  | Fail
deriving DecidableEq

/-! ## Chi-squared goodness-of-fit test
(src/bitbelay-tests/src/chi_squared/goodness_of_fit.rs) -/

namespace Gof

/-- Embedding of the accumulator state of `chi_squared::goodness_of_fit::Test`
(goodness_of_fit.rs lines 16-28).  The hash capability and provider are
external; the digest drawn on an iteration is passed to `single_iteration`
directly. -/
structure Test where
  buckets : List ℕ
  threshold : ℚ
deriving DecidableEq

/-- Embedding of `Test::new` (goodness_of_fit.rs lines 57-69): allocates
`num_buckets` zeroed buckets and stores the threshold.  The source performs
no validation of `threshold` and returns `Self`, not a `Result`, so the
embedding is a total function. -/
def Test.new (num_buckets : ℕ) (threshold : ℚ) : Test :=
  { buckets := List.replicate num_buckets 0, threshold := threshold }

/-- Embedding of `Test::single_iteration` (goodness_of_fit.rs lines 201-207)
with the drawn sample's 64-bit digest passed in as `hash`: the bucket index is
`hash % buckets.len()` (the `hash as usize` cast is the identity for 64-bit
`usize`) and that bucket's counter is incremented. -/
def Test.single_iteration (t : Test) (hash : ℕ) : Test :=
  let bucket := hash % t.buckets.length
  { t with buckets := t.buckets.set bucket (t.buckets.getD bucket 0 + 1) }

/-- Iterating `single_iteration` over a list of drawn digests, oldest first. -/
def Test.iterate (t : Test) (hashes : List ℕ) : Test :=
  hashes.foldl Test.single_iteration t

/-- Embedding of `Test::p_value` (goodness_of_fit.rs lines 242-244):
`UniformPearsonTest::goodness_of_fit` on the current buckets. -/
def Test.p_value (cdf : ℕ → ℚ → Flt) (t : Test) : Except String (Option Flt) :=
  goodness_of_fit cdf t.buckets

/-- Embedding of the verdict reduction in `Test::report_section`
(goodness_of_fit.rs lines 253-291): `Some(p)` with `p > threshold` is `Pass`,
`Some(p)` otherwise is `Fail` (a NaN `p` also lands here, because the IEEE
`>` is false), and `None` takes the dedicated `Inconclusive` branch. -/
def report_result (p_value : Option Flt) (threshold : ℚ) : ModuleResult :=
  match p_value with
  | some p => if fgt p (some threshold) then .Pass else .Fail
  | none => .Inconclusive

end Gof

/-! ## Bitwise correlation test
(src/bitbelay-tests/src/correlation/bitwise.rs) -/

namespace Bitwise

/-- Embedding of `extract_bit_values_from_hashes` (bitwise.rs lines 282-306):
for each bit position `i < N`, the list of bit `i` of every hash, in hash
order, as a 0/1 numeric value (`(hash >> i) & 1` is `(hash >>> i) % 2`). -/
def extract_bit_values_from_hashes (N : ℕ) (hashes : List ℕ) : List (List ℚ) :=
  (List.range N).map (fun i => hashes.map (fun hash => (((hash >>> i) % 2 : ℕ) : ℚ)))

/-- Embedding of the accumulator state of `correlation::bitwise::Test`
(bitwise.rs lines 23-33). -/
structure Test where
  bit_values : List (List ℚ)
  threshold : ℚ
deriving DecidableEq

/-- Embedding of `Test::new` (bitwise.rs lines 48-54): `N` empty sample
vectors, threshold stored.  The source performs no validation of `threshold`
and returns `Self`, not a `Result`, so the embedding is a total function. -/
def Test.new (N : ℕ) (threshold : ℚ) : Test :=
  { bit_values := List.replicate N [], threshold := threshold }

/-- Embedding of `Test::run` (bitwise.rs lines 122-132), with the digests the
run computes from the provider batch passed in as `hashes` (the provider
contract gives `provide(iterations)` exactly `iterations` samples, so
`hashes.length` is the iteration count): each per-bit vector is extended with
that bit's values extracted from the batch. -/
def Test.run (t : Test) (hashes : List ℕ) : Test :=
  { t with
    bit_values :=
      List.zipWith (· ++ ·) t.bit_values
        (extract_bit_values_from_hashes t.bit_values.length hashes) }

/-- Embedding of `Test::results` (bitwise.rs lines 156-179): `None` when no
samples have been accumulated yet, otherwise all `N × N` pairwise Pearson
correlations keyed by `(i, j)` (the source stores them in a `HashMap`; the
embedding keeps the deterministic `(i, j)` enumeration order, which no
consumer of the map depends on). -/
def Test.results (t : Test) : Option (List ((ℕ × ℕ) × Option ℚ)) :=
  if (t.bit_values.headD []).isEmpty then none
  else
    some ((List.range t.bit_values.length).flatMap (fun i =>
      (List.range t.bit_values.length).map (fun j =>
        ((i, j), correlation (t.bit_values.getD i []) (t.bit_values.getD j [])))))

/-- Off-diagonal entries of `results`, as filtered in `Test::report_section`
(bitwise.rs line 200). -/
def Test.offDiagonal (t : Test) : List ((ℕ × ℕ) × Option ℚ) :=
  ((List.range t.bit_values.length).flatMap (fun i =>
    (List.range t.bit_values.length).map (fun j =>
      ((i, j), correlation (t.bit_values.getD i []) (t.bit_values.getD j []))))).filter
    (fun p => p.1.1 ≠ p.1.2)

/-- Embedding of the verdict reduction in `Test::report_section`
(bitwise.rs lines 187-249):

* no accumulated samples — `panic!` (line 191), modelled as `Except.error`;
* any off-diagonal correlation `None` — `panic!` (lines 206-213), modelled as
  `Except.error`;
* otherwise `Fail` when some off-diagonal absolute correlation reaches the
  threshold, else `Pass`. -/
def Test.report_result (t : Test) : Except String ModuleResult :=
  if (t.bit_values.headD []).isEmpty then
    .error "a report can only be generated when at least one test has been run!"
  else if (t.offDiagonal).any (fun p => p.2.isNone) then
    .error "one of the correlations was None"
  else if (t.offDiagonal).any (fun p => |p.2.getD 0| ≥ t.threshold) then
    .ok .Fail
  else
    .ok .Pass

end Bitwise

/-! ## Strict avalanche criterion test
(src/bitbelay-tests/src/avalanche/sac.rs and sac/experiment.rs) -/

namespace Sac

/-- Embedding of `avalanche::sac::Error` (sac.rs lines 32-38). -/
inductive Error where
  | Experiment
  | InvalidMaxDeviance (value : ℚ)
deriving DecidableEq

/-- Embedding of the accumulator state of `avalanche::sac::Test`
(sac.rs lines 78-99). -/
structure Test where
  bit_flips : List ℕ
  iterations_per_experiment : ℕ
  total_experiments : ℕ
  max_deviance : ℚ
deriving DecidableEq

/-- Embedding of `Test::try_new` (sac.rs lines 125-143): rejects a
`max_deviance` outside `[0, 1]` with the typed `InvalidMaxDeviance` error,
otherwise produces the zeroed `N`-slot state. -/
def Test.try_new (N : ℕ) (iterations_per_experiment : ℕ) (max_deviance : ℚ) :
    Except Error Test :=
  if ¬(0 ≤ max_deviance ∧ max_deviance ≤ 1) then
    .error (.InvalidMaxDeviance max_deviance)
  else
    .ok { bit_flips := List.replicate N 0
          iterations_per_experiment := iterations_per_experiment
          total_experiments := 0
          max_deviance := max_deviance }

/-- Embedding of the inner tally update of `Experiment::run`
(experiment.rs lines 165-170): position `i < N` of the counter array is
incremented exactly when bit `i` of the XOR `result` is set. -/
def bump (N : ℕ) (acc : List ℕ) (result : ℕ) : List ℕ :=
  (List.range N).map (fun i => acc.getD i 0 + if (result >>> i) % 2 = 1 then 1 else 0)

/-- Embedding of `Experiment::flip_random_bit` (experiment.rs lines 126-131)
with the randomly drawn position passed in as `index`: the bit at `index` of
the data bit-vector is negated. -/
def flip_bit (data : List Bool) (index : ℕ) : List Bool :=
  data.set index (!data.getD index false)

/-- Embedding of the loop of `Experiment::run` (experiment.rs lines 155-176):
`previous` carries the digest of the current data forward, each iteration
flips the drawn bit, digests the mutated data, XORs with `previous`, tallies,
and replaces `previous` with the new digest.  `h` is the (pure) composition
of `build_hasher`/`write`/`finish` on a data bit-vector; `flips` is the
sequence of randomly drawn bit positions, one per inner iteration. -/
def runGo (h : List Bool → ℕ) (N : ℕ) :
    ℕ → List Bool → List ℕ → List ℕ → List ℕ
  | _, _, acc, [] => acc
  | previous, data, acc, index :: rest =>
    let data2 := flip_bit data index
    let next := h data2
    runGo h N next data2 (bump N acc (previous ^^^ next)) rest

/-- Embedding of `Experiment::run` (experiment.rs lines 155-176): digest the
starting data once, then run the loop. -/
def Experiment.run (h : List Bool → ℕ) (N : ℕ) (data : List Bool)
    (flips : List ℕ) : List ℕ :=
  runGo h N (h data) data (List.replicate N 0) flips

/-- Spec-mandated experiment procedure, written from the specification's
words: "each inner iteration: (a) digest the current bit vector ('prior'),
(b) flip one uniformly-random bit position, (c) digest the mutated vector
('next'), (d) XOR prior and next, (e) for each of the 64 output bit positions
where the XOR result has a 1, increment that position's counter" — i.e. every
iteration re-digests the current vector as `prior` instead of carrying the
previous iteration's `next` forward.  This definition exists only to be
compared against `Experiment.run` above. -/
def specGo (h : List Bool → ℕ) (N : ℕ) :
    List Bool → List ℕ → List ℕ → List ℕ
  | _, acc, [] => acc
  | data, acc, index :: rest =>
    let prior := h data
    let data2 := flip_bit data index
    let next := h data2
    specGo h N data2 (bump N acc (prior ^^^ next)) rest

/-- Spec-mandated experiment, starting from a zeroed tally. -/
def Experiment.specRun (h : List Bool → ℕ) (N : ℕ) (data : List Bool)
    (flips : List ℕ) : List ℕ :=
  specGo h N data (List.replicate N 0) flips

/-- Embedding of Rust's `Iterator::max_by_key` as used in `Test::results`
(sac.rs lines 384-390): of several equally maximal elements the last is
returned. -/
def max_by_key (l : List (ℕ × ℚ)) : Option (ℕ × ℚ) :=
  l.foldl
    (fun best p =>
      match best with
      | none => some p
      | some b => if b.2 ≤ p.2 then some p else some b)
    none

/-- Embedding of `avalanche::sac::Results` (sac.rs lines 61-74). -/
structure Results where
  succeeded : Bool
  max_bias : ℕ × ℚ
  bit_bias_offsets : List (ℕ × ℚ)
deriving DecidableEq

/-- Embedding of `Test::results` (sac.rs lines 373-399): per position,
fraction = flips / (total_experiments × iterations_per_experiment) and
bias = |fraction − 0.5|; the maximum-bias entry is selected with
`max_by_key`; success is max bias ≤ max_deviance.  The `unwrap` on an empty
bit array (`N = 0`) is modelled as `Except.error`.  Rational division models
the `f64` division exactly; with zero experiments the source divides by zero
(an IEEE NaN), so the properties below are stated for at least one
experiment. -/
def Test.results (t : Test) : Except String Results :=
  let iterations : ℚ := ((t.total_experiments * t.iterations_per_experiment : ℕ) : ℚ)
  let bits := (t.bit_flips.map (fun (flips : ℕ) => (flips : ℚ) / iterations)).enum.map
    (fun p => (p.1, |p.2 - 1/2|))
  match max_by_key bits with
  | none => .error "there will always be at least one result"
  | some (index, max_bias) =>
    .ok { succeeded := max_bias ≤ t.max_deviance
          max_bias := (index, max_bias)
          bit_bias_offsets := bits }

end Sac

/-! ## Speed test
(src/bitbelay-tests/src/performance/speed.rs) -/

namespace Speed

/-- Embedding of the `while` loop of `Test::rehydrate` (speed.rs lines
274-276): while the buffer is shorter than the desired size, pull one slice
from the provider (`provide k` is the slice returned by the provider's
`k`-th `provide(1)` call, `k` the cursor into the provider's draw sequence)
and append it.  The loop is embedded with explicit fuel; `desired + 1` steps
suffice whenever every provided slice is nonempty, which is exactly the
situation in which the source loop terminates at all. -/
def rehydrateGo (provide : ℕ → List ℕ) (desired : ℕ) :
    ℕ → ℕ → List ℕ → List ℕ × ℕ
  | 0, k, data => (data, k)
  | fuel + 1, k, data =>
    if data.length < desired then
      rehydrateGo provide desired fuel (k + 1) (data ++ provide k)
    else
      (data, k)

/-- Embedding of `Test::rehydrate` (speed.rs lines 263-288): the buffer is
cleared (`self.data.clear()`, line 264 — the loop starts from the empty
buffer) and rebuilt from provider pulls; returns the rebuilt buffer and the
advanced provider cursor. -/
def rehydrate (provide : ℕ → List ℕ) (desired : ℕ) (k : ℕ) : List ℕ × ℕ :=
  rehydrateGo provide desired (desired + 1) k []

end Speed

/-! ## Derived quantities used in statements -/

/-- Mean observation count per bucket, `(Σ counters) / B`, the `expected`
value of `chi_squared_uniform`. -/
def meanPerBucket (observations : List ℕ) : ℚ :=
  (observations.sum : ℚ) / (observations.length : ℚ)

/-- Bias of bit position `i` as computed by `Sac.Test.results`:
`|flips_i / (total_experiments × iterations_per_experiment) − 1/2|`. -/
def Sac.Test.biasAt (t : Sac.Test) (i : ℕ) : ℚ :=
  |(t.bit_flips.getD i 0 : ℚ) /
      ((t.total_experiments * t.iterations_per_experiment : ℕ) : ℚ) - 1/2|

/-- Indexed bias list built by `Sac.Test.results` (its `bits` local). -/
def Sac.Test.bitsList (t : Sac.Test) : List (ℕ × ℚ) :=
  (t.bit_flips.map (fun (flips : ℕ) => (flips : ℚ) /
      ((t.total_experiments * t.iterations_per_experiment : ℕ) : ℚ))).enum.map
    (fun p => (p.1, |p.2 - 1/2|))

/-! ## General helper lemmas -/

/-- Folding addition of `f` over a list is the initial value plus the sum of
the mapped list. -/
theorem foldl_add_map_sum (f : ℕ → ℚ) :
    ∀ (l : List ℕ) (init : ℚ),
      l.foldl (fun acc c => acc + f c) init = init + (l.map f).sum
  | [], init => by simp
  | c :: rest, init => by
    rw [List.foldl_cons, foldl_add_map_sum f rest (init + f c)]
    simp [List.map_cons, List.sum_cons]
    ring

/-- The guard of `chi_squared_uniform`, characterized through
`meanPerBucket`. -/
theorem chi_squared_uniform_eq_none_iff (observations : List ℕ) :
    chi_squared_uniform observations = none ↔
      (observations.length ≠ 0 ∧ meanPerBucket observations < 5) := by
  rw [show chi_squared_uniform observations
      = if observations.length ≠ 0 ∧ meanPerBucket observations < 5 then none
        else some (observations.foldl (fun acc (count : ℕ) =>
          acc + ((((count : ℤ) - ⌊meanPerBucket observations⌋ : ℤ)) : ℚ) ^ 2 /
            meanPerBucket observations) 0) from rfl]
  by_cases hg : observations.length ≠ 0 ∧ meanPerBucket observations < 5
  · rw [if_pos hg]
    simp [hg]
  · rw [if_neg hg]
    simpa using hg

/-- Value of `chi_squared_uniform` off the guard, as a mapped sum. -/
theorem chi_squared_uniform_eq_some (observations : List ℕ)
    (hg : ¬(observations.length ≠ 0 ∧ meanPerBucket observations < 5)) :
    chi_squared_uniform observations =
      some ((observations.map (fun (count : ℕ) =>
        ((((count : ℤ) - ⌊meanPerBucket observations⌋ : ℤ)) : ℚ) ^ 2 /
          meanPerBucket observations)).sum) := by
  rw [show chi_squared_uniform observations
      = if observations.length ≠ 0 ∧ meanPerBucket observations < 5 then none
        else some (observations.foldl (fun acc (count : ℕ) =>
          acc + ((((count : ℤ) - ⌊meanPerBucket observations⌋ : ℤ)) : ℚ) ^ 2 /
            meanPerBucket observations) 0) from rfl,
    if_neg hg,
    foldl_add_map_sum (fun (count : ℕ) =>
      ((((count : ℤ) - ⌊meanPerBucket observations⌋ : ℤ)) : ℚ) ^ 2 /
        meanPerBucket observations) observations 0,
    zero_add]

/-! ## C1 — chi-squared statistic versus the real-number formula -/

/-- C1 counterexample: at observations `[5, 6]` the mean per bucket is
`11/2 ≥ 5`, yet the code computes `2/11` while the claimed real-number
formula `Σ (observed − expected)² / expected` gives `1/11`: the code
truncates `expected` to an integer (`expected as isize`) before taking the
difference. -/
theorem chi_squared_real_formula_counterexample :
    5 ≤ meanPerBucket [5, 6] ∧
    chi_squared_uniform [5, 6] = some (2/11) ∧
    chiSquaredSpecStatistic [5, 6] = some (1/11) ∧
    ((2 : ℚ)/11 ≠ 1/11) := by
  refine ⟨by norm_num [meanPerBucket], ?_, ?_, by norm_num⟩
  · simp [chi_squared_uniform]
    norm_num
  · simp [chiSquaredSpecStatistic]
    norm_num

/-- C1 (amended): for every nonempty observation vector with mean count per
bucket at least 5, the uniform chi-squared statistic is
`Σ (observed − ⌊expected⌋)² / expected` — the expected value is truncated
toward zero to an integer before the difference is taken (a divergence from
the real-number formula whenever `expected` is not an integer); when the
mean per bucket is below 5 no result is returned. -/
theorem chi_squared_uniform_truncated_formula (observations : List ℕ)
    (hne : observations ≠ []) :
    (5 ≤ meanPerBucket observations →
      chi_squared_uniform observations =
        some ((observations.map (fun (count : ℕ) =>
          ((((count : ℤ) - ⌊meanPerBucket observations⌋ : ℤ)) : ℚ) ^ 2 /
            meanPerBucket observations)).sum)) ∧
    (meanPerBucket observations < 5 → chi_squared_uniform observations = none) := by
  constructor
  · intro h5
    exact chi_squared_uniform_eq_some observations (by
      rintro ⟨-, hlt⟩
      exact absurd h5 (not_le.mpr hlt))
  · intro hlt
    exact (chi_squared_uniform_eq_none_iff observations).mpr
      ⟨fun h => hne (List.length_eq_zero.mp h), hlt⟩

/-- C1 witness: the amended theorem applied at `[5, 6]`. -/
theorem chi_squared_uniform_truncated_formula_witness :
    ([5, 6] : List ℕ) ≠ [] ∧ 5 ≤ meanPerBucket [5, 6] ∧
    chi_squared_uniform [5, 6] =
      some ((([5, 6] : List ℕ).map (fun (count : ℕ) =>
        ((((count : ℤ) - ⌊meanPerBucket [5, 6]⌋ : ℤ)) : ℚ) ^ 2 /
          meanPerBucket [5, 6])).sum) :=
  ⟨by decide, by norm_num [meanPerBucket],
    (chi_squared_uniform_truncated_formula [5, 6] (by decide)).1
      (by norm_num [meanPerBucket])⟩

/-! ## C7 — the avalanche experiment loop refines the spec procedure -/

/-- Carrying the previous digest forward agrees with re-digesting the current
data at each iteration, for any accumulator: the hash is a pure function of
the data, and the data entering iteration `k+1` is exactly the mutated data
whose digest iteration `k` computed as `next`. -/
theorem sac_runGo_eq_specGo (h : List Bool → ℕ) (N : ℕ) :
    ∀ (flips : List ℕ) (data : List Bool) (acc : List ℕ),
      Sac.runGo h N (h data) data acc flips = Sac.specGo h N data acc flips
  | [], _, _ => rfl
  | index :: rest, data, acc => by
    show Sac.runGo h N (h (Sac.flip_bit data index)) (Sac.flip_bit data index)
        (Sac.bump N acc (h data ^^^ h (Sac.flip_bit data index))) rest
      = Sac.specGo h N (Sac.flip_bit data index)
        (Sac.bump N acc (h data ^^^ h (Sac.flip_bit data index))) rest
    exact sac_runGo_eq_specGo h N rest (Sac.flip_bit data index) _

/-- C7: for every hash function, output width, starting bit vector and
sequence of randomly drawn flip positions, the per-bit counter array produced
by the implemented loop (digest the start once, carry each iteration's
`next` digest forward as the new `prior`) equals the counter array produced
by the spec's procedure (each inner iteration digests the current vector as
`prior`, flips one bit, digests the mutated vector as `next`, XORs them, and
increments each of the output positions where the XOR has a 1). -/
theorem avalanche_run_refines_spec (h : List Bool → ℕ) (N : ℕ)
    (data : List Bool) (flips : List ℕ) :
    Sac.Experiment.run h N data flips = Sac.Experiment.specRun h N data flips :=
  sac_runGo_eq_specGo h N flips data (List.replicate N 0)

/-! ## C3 — constructor-time validation of configuration values -/

/-- C3 counterexample: both the chi-squared goodness-of-fit constructor and
the bitwise correlation constructor accept the out-of-range significance /
correlation threshold `2 ∉ [0, 1]` and produce a fully formed `Test` — their
return types cannot even express failure, so no typed error is possible. -/
theorem constructor_no_validation_counterexample :
    Gof.Test.new 2048 2 = { buckets := List.replicate 2048 0, threshold := 2 } ∧
    Bitwise.Test.new 64 2 = { bit_values := List.replicate 64 [], threshold := 2 } :=
  ⟨rfl, rfl⟩

/-- C3 (amended): only the avalanche test constructor validates its
configuration: a max-deviance outside `[0, 1]` is rejected with the typed
`InvalidMaxDeviance` error and no `Test` is produced, while an in-range
max-deviance yields the zeroed state.  The chi-squared goodness-of-fit and
bitwise correlation constructors perform no validation at all: they produce
a `Test` for every threshold, in range or not. -/
theorem constructor_validation_avalanche_only :
    (∀ (N ipe : ℕ) (md : ℚ), ¬(0 ≤ md ∧ md ≤ 1) →
      Sac.Test.try_new N ipe md = .error (.InvalidMaxDeviance md)) ∧
    (∀ (N ipe : ℕ) (md : ℚ), 0 ≤ md → md ≤ 1 →
      Sac.Test.try_new N ipe md =
        .ok { bit_flips := List.replicate N 0, iterations_per_experiment := ipe,
              total_experiments := 0, max_deviance := md }) ∧
    (∀ (num_buckets : ℕ) (threshold : ℚ),
      Gof.Test.new num_buckets threshold =
        { buckets := List.replicate num_buckets 0, threshold := threshold }) ∧
    (∀ (N : ℕ) (threshold : ℚ),
      Bitwise.Test.new N threshold =
        { bit_values := List.replicate N [], threshold := threshold }) := by
  refine ⟨?_, ?_, fun _ _ => rfl, fun _ _ => rfl⟩
  · intro N ipe md hmd
    simp [Sac.Test.try_new, hmd]
  · intro N ipe md h0 h1
    simp [Sac.Test.try_new, h0, h1]

/-- C3 witness: `3/2 ∉ [0, 1]` is rejected by the avalanche constructor with
the typed error, while the unvalidated constructors accept `3/2`. -/
theorem constructor_validation_avalanche_only_witness :
    ¬((0 : ℚ) ≤ 3/2 ∧ (3/2 : ℚ) ≤ 1) ∧
    Sac.Test.try_new 64 1000 (3/2) = .error (.InvalidMaxDeviance (3/2)) ∧
    Gof.Test.new 2048 (3/2) = { buckets := List.replicate 2048 0, threshold := 3/2 } :=
  ⟨by norm_num,
    constructor_validation_avalanche_only.1 64 1000 (3/2) (by norm_num),
    constructor_validation_avalanche_only.2.2.1 2048 (3/2)⟩

/-! ## C10 — goodness_of_fit returns None exactly on low density; the NaN
guard is unreachable -/

/-- C10: `p_value()` is `goodness_of_fit` on the buckets; `goodness_of_fit`
returns `None` exactly when the guard of `chi_squared_uniform` fires (the
mean observation count per bucket is computable and below 5); the
`percentile == NAN` comparison is false for every float, including NaN, so
that guard's branch is unreachable; and when the CDF yields NaN the NaN
p-value `1.0 - NaN` is returned inside `Some` rather than as `None`. -/
theorem goodness_of_fit_none_iff_low_density :
    (∀ (cdf : ℕ → ℚ → Flt) (t : Gof.Test),
      Gof.Test.p_value cdf t = goodness_of_fit cdf t.buckets) ∧
    (∀ (cdf : ℕ → ℚ → Flt) (observations : List ℕ),
      goodness_of_fit cdf observations = .ok none ↔
        (observations.length ≠ 0 ∧ meanPerBucket observations < 5)) ∧
    (∀ p : Flt, feq p fNaN = false) ∧
    (∀ (cdf : ℕ → ℚ → Flt) (observations : List ℕ),
      (∀ df x, cdf df x = fNaN) → 2 ≤ observations.length →
      ¬(meanPerBucket observations < 5) →
      goodness_of_fit cdf observations = .ok (some fNaN)) := by
  have hfeq : ∀ p : Flt, feq p fNaN = false := by
    intro p
    cases p <;> rfl
  refine ⟨fun _ _ => rfl, ?_, hfeq, ?_⟩
  · intro cdf observations
    rw [← chi_squared_uniform_eq_none_iff]
    unfold goodness_of_fit
    cases hchi : chi_squared_uniform observations with
    | none => simp
    | some s =>
      by_cases hlen : observations.length < 2
      · simp [hlen]
      · simp [hlen, hfeq]
  · intro cdf observations hcdf hlen hmean
    have hchi := chi_squared_uniform_eq_some observations (by
      rintro ⟨-, hlt⟩
      exact hmean hlt)
    simp only [goodness_of_fit, hchi]
    rw [if_neg (Nat.not_lt.mpr hlen)]
    simp only [hcdf, hfeq, if_false]
    rfl

/-- C10 witness: the None-iff direction applied at the concrete observations
`[1, 0]` (mean `1/2 < 5`), and the NaN-propagation conclusion at `[5, 6]`
(mean `11/2 ≥ 5`) under the everywhere-NaN CDF. -/
theorem goodness_of_fit_none_iff_low_density_witness :
    goodness_of_fit (fun _ _ => fNaN) [1, 0] = .ok none ∧
    goodness_of_fit (fun _ _ => fNaN) [5, 6] = .ok (some fNaN) :=
  ⟨(goodness_of_fit_none_iff_low_density.2.1 (fun _ _ => fNaN) [1, 0]).mpr
      ⟨by decide, by norm_num [meanPerBucket]⟩,
    goodness_of_fit_none_iff_low_density.2.2.2 (fun _ _ => fNaN) [5, 6]
      (fun _ _ => rfl) (by decide) (by norm_num [meanPerBucket])⟩

/-! ## C5 — Pearson correlation boundary behaviour -/

/-- Square root of zero is zero in the sqrt model. -/
theorem ratSqrt_zero : ratSqrt 0 = 0 := by
  simp [ratSqrt]

/-- Evaluation helper for the concrete Pearson examples. -/
theorem natSqrt_400 : Nat.sqrt 400 = 20 := by
  rw [show (400 : ℕ) = 20 * 20 by norm_num, Nat.sqrt_eq]

/-- Variance numerator of a constant list vanishes:
`n·Σx² − (Σx)² = 0` when every element equals `c`. -/
theorem const_list_variance_zero (a : List ℚ) (c : ℚ) (hc : ∀ x ∈ a, x = c) :
    (a.length : ℚ) * (a.map (fun x => x ^ 2)).sum - a.sum ^ 2 = 0 := by
  have h1 : a.sum = a.length • c := List.sum_eq_card_nsmul a c hc
  have h2 : (a.map (fun x => x ^ 2)).sum = (a.map (fun x => x ^ 2)).length • (c ^ 2) :=
    List.sum_eq_card_nsmul _ (c ^ 2) (by
      intro y hy
      obtain ⟨x, hx, rfl⟩ := List.mem_map.mp hy
      rw [hc x hx])
  rw [h1, h2, List.length_map, nsmul_eq_mul, nsmul_eq_mul]
  ring

/-- Mismatched lengths yield no result. -/
theorem correlation_mismatch_none (a b : List ℚ) (h : a.length ≠ b.length) :
    correlation a b = none := by
  simp only [correlation]
  rw [if_pos (Or.inl h)]

/-- An empty first slice yields no result (with equal lengths, both are
empty). -/
theorem correlation_empty_none (b : List ℚ) :
    correlation [] b = none := by
  simp [correlation]

/-- A constant (zero-variance) first slice yields no result. -/
theorem correlation_const_left_none (a b : List ℚ) (c : ℚ)
    (hc : ∀ x ∈ a, x = c) :
    correlation a b = none := by
  by_cases hg : a.length ≠ b.length ∨ a.isEmpty
  · simp only [correlation]
    rw [if_pos hg]
  · simp only [correlation]
    rw [if_neg hg, if_pos]
    rw [const_list_variance_zero a c hc, zero_mul, ratSqrt_zero]

/-- A constant (zero-variance) second slice yields no result. -/
theorem correlation_const_right_none (a b : List ℚ) (c : ℚ)
    (hc : ∀ x ∈ b, x = c) (hlen : a.length = b.length) :
    correlation a b = none := by
  by_cases hg : a.length ≠ b.length ∨ a.isEmpty
  · simp only [correlation]
    rw [if_pos hg]
  · simp only [correlation]
    rw [if_neg hg, if_pos]
    rw [hlen, const_list_variance_zero b c hc, mul_zero, ratSqrt_zero]

/-- Perfect positive linear relationship evaluates to exactly 1. -/
theorem correlation_pos_example :
    correlation [1, 2, 3, 4] [5, 6, 7, 8] = some 1 := by
  simp [correlation, ratSqrt]
  norm_num [show Int.toNat 400 = 400 from rfl, natSqrt_400]

/-- Perfect negative linear relationship evaluates to exactly −1. -/
theorem correlation_neg_example :
    correlation [1, 2, 3, 4] [8, 7, 6, 5] = some (-1) := by
  simp [correlation, ratSqrt]
  norm_num [show Int.toNat 400 = 400 from rfl, natSqrt_400]

/-- C5: Pearson correlation returns no result on mismatched lengths, on an
empty pair, and on a zero-variance (constant) slice on either side; on
`([1,2,3,4],[5,6,7,8])` it is exactly 1 and on `([1,2,3,4],[8,7,6,5])`
exactly −1.  (In this exact-arithmetic model a constant slice makes the
variance factor, and hence the denominator, exactly zero.) -/
theorem pearson_correlation_boundary :
    (∀ a b : List ℚ, a.length ≠ b.length → correlation a b = none) ∧
    (∀ b : List ℚ, correlation [] b = none) ∧
    (∀ (a b : List ℚ) (c : ℚ), (∀ x ∈ a, x = c) → correlation a b = none) ∧
    (∀ (a b : List ℚ) (c : ℚ), (∀ x ∈ b, x = c) → a.length = b.length →
      correlation a b = none) ∧
    correlation [1, 2, 3, 4] [5, 6, 7, 8] = some 1 ∧
    correlation [1, 2, 3, 4] [8, 7, 6, 5] = some (-1) :=
  ⟨correlation_mismatch_none, correlation_empty_none,
    fun a b c hc => correlation_const_left_none a b c hc,
    fun a b c hc hlen => correlation_const_right_none a b c hc hlen,
    correlation_pos_example, correlation_neg_example⟩

/-- C5 witness: the quantified parts applied at concrete inputs — mismatched
lengths `([1,2],[1])`, the empty pair, and the constant-zero vectors of the
spec's boundary case. -/
theorem pearson_correlation_boundary_witness :
    correlation [1, 2] [1] = none ∧
    correlation [] [] = none ∧
    correlation [0, 0, 0] [0, 0, 0] = none :=
  ⟨pearson_correlation_boundary.1 [1, 2] [1] (by decide),
    pearson_correlation_boundary.2.1 [],
    pearson_correlation_boundary.2.2.1 [0, 0, 0] [0, 0, 0] 0
      (by
        intro x hx
        simpa using hx)⟩

/-! ## C6 — bucket conservation in the goodness-of-fit test -/

/-- Reading back the bucket just written. -/
theorem getD_set_self : ∀ (l : List ℕ) (i v : ℕ), i < l.length →
    (l.set i v).getD i 0 = v
  | [], _, _, h => absurd h (by simp)
  | _ :: _, 0, _, _ => rfl
  | _ :: xs, i + 1, v, h => getD_set_self xs i v (by simpa using h)

/-- Writing one bucket leaves every other bucket unchanged. -/
theorem getD_set_ne : ∀ (l : List ℕ) (v i j : ℕ), i ≠ j →
    (l.set i v).getD j 0 = l.getD j 0
  | [], _, _, _, _ => rfl
  | _ :: _, _, 0, 0, h => absurd rfl h
  | _ :: _, _, 0, _ + 1, _ => rfl
  | _ :: _, _, _ + 1, 0, _ => rfl
  | _ :: xs, v, i + 1, j + 1, h =>
    getD_set_ne xs v i j (fun e => h (by rw [e]))

/-- Incrementing one in-range bucket increments the total by one. -/
theorem sum_set_getD_succ : ∀ (l : List ℕ) (i : ℕ), i < l.length →
    (l.set i (l.getD i 0 + 1)).sum = l.sum + 1
  | [], _, h => absurd h (by simp)
  | x :: xs, 0, _ => by
    show (x + 1 + xs.sum) = (x + xs.sum) + 1
    omega
  | x :: xs, i + 1, h => by
    show (x + (xs.set i (xs.getD i 0 + 1)).sum) = (x + xs.sum) + 1
    rw [sum_set_getD_succ xs i (by simpa using h)]
    omega

/-- Invariant of iterating `single_iteration`: the bucket count is preserved
and the total count grows by one per call. -/
theorem gof_iterate_invariant : ∀ (hashes : List ℕ) (t : Gof.Test),
    0 < t.buckets.length →
    (t.iterate hashes).buckets.length = t.buckets.length ∧
    (t.iterate hashes).buckets.sum = t.buckets.sum + hashes.length
  | [], t, _ => ⟨rfl, rfl⟩
  | hash :: rest, t, hpos => by
    have hstep_len : (t.single_iteration hash).buckets.length = t.buckets.length := by
      simp [Gof.Test.single_iteration]
    have hstep_sum : (t.single_iteration hash).buckets.sum = t.buckets.sum + 1 :=
      sum_set_getD_succ t.buckets (hash % t.buckets.length) (Nat.mod_lt hash hpos)
    have hrest := gof_iterate_invariant rest (t.single_iteration hash)
      (by rw [hstep_len]; exact hpos)
    refine ⟨by rw [show (t.iterate (hash :: rest)) = ((t.single_iteration hash).iterate rest) from rfl,
        hrest.1, hstep_len], ?_⟩
    rw [show (t.iterate (hash :: rest)) = ((t.single_iteration hash).iterate rest) from rfl,
      hrest.2, hstep_sum]
    simp [List.length_cons]
    omega

/-- C6: after `k` `single_iteration` calls on a fresh test with `B > 0`
buckets the bucket total is exactly `k`; and each call increments exactly the
bucket at index `digest mod B`, leaving every other bucket unchanged. -/
theorem gof_bucket_conservation (num_buckets : ℕ) (threshold : ℚ)
    (hashes : List ℕ) (hB : 0 < num_buckets) :
    ((Gof.Test.new num_buckets threshold).iterate hashes).buckets.sum = hashes.length ∧
    (∀ (t : Gof.Test) (hash : ℕ), 0 < t.buckets.length →
      ((t.single_iteration hash).buckets.getD (hash % t.buckets.length) 0
          = t.buckets.getD (hash % t.buckets.length) 0 + 1 ∧
        ∀ i, i ≠ hash % t.buckets.length →
          (t.single_iteration hash).buckets.getD i 0 = t.buckets.getD i 0)) := by
  constructor
  · have h := gof_iterate_invariant hashes (Gof.Test.new num_buckets threshold)
      (by simpa [Gof.Test.new] using hB)
    rw [h.2]
    simp [Gof.Test.new, List.sum_replicate]
  · intro t hash hpos
    constructor
    · exact getD_set_self t.buckets (hash % t.buckets.length) _
        (Nat.mod_lt hash hpos)
    · intro i hi
      exact getD_set_ne t.buckets _ (hash % t.buckets.length) i
        (fun e => hi e.symm)

/-- C6 witness: four iterations on a 3-bucket test — the total is 4, and one
step on digest 5 bumps bucket `5 mod 3 = 2` only. -/
theorem gof_bucket_conservation_witness :
    ((Gof.Test.new 3 (1/20)).iterate [5, 7, 9, 4]).buckets.sum = 4 ∧
    (((Gof.Test.new 3 (1/20)).single_iteration 5).buckets.getD (5 % 3) 0
        = (Gof.Test.new 3 (1/20)).buckets.getD (5 % 3) 0 + 1) :=
  ⟨(gof_bucket_conservation 3 (1/20) [5, 7, 9, 4] (by decide)).1,
    (((gof_bucket_conservation 3 (1/20) [] (by decide)).2
        (Gof.Test.new 3 (1/20)) 5 (by decide)).1)⟩

/-! ## C8 — speed-test buffer rebuild bounds -/

/-- Loop invariant for the rehydrate loop: with enough fuel and fixed
positive slice length, the loop exits with a buffer of length in
`[desired, desired + bpi)`. -/
theorem rehydrateGo_bounds (provide : ℕ → List ℕ) (desired bpi : ℕ)
    (hbpi : 0 < bpi) (hlen : ∀ j, (provide j).length = bpi) :
    ∀ (fuel k : ℕ) (data : List ℕ),
      desired < data.length + fuel →
      data.length < desired + bpi →
      desired ≤ (Speed.rehydrateGo provide desired fuel k data).1.length ∧
      (Speed.rehydrateGo provide desired fuel k data).1.length < desired + bpi
  | 0, _, data, hinv, hub =>
    ⟨show desired ≤ data.length by omega,
      show data.length < desired + bpi from hub⟩
  | fuel + 1, k, data, hinv, hub => by
    simp only [Speed.rehydrateGo]
    by_cases hlt : data.length < desired
    · rw [if_pos hlt]
      have happ : (data ++ provide k).length = data.length + bpi := by
        rw [List.length_append, hlen k]
      exact rehydrateGo_bounds provide desired bpi hbpi hlen fuel (k + 1)
        (data ++ provide k) (by omega) (by omega)
    · rw [if_neg hlt]
      exact ⟨show desired ≤ data.length by omega,
        show data.length < desired + bpi from hub⟩

/-- C8: assuming the provider returns slices of fixed positive length
`bytes_per_input`, the rebuild of the internal buffer (which starts from the
cleared, empty buffer by definition of `rehydrate`) ends with a buffer of
length at least the desired payload size and less than the desired size plus
`bytes_per_input` — it may exceed the request by up to one provider unit.
This holds from every provider cursor `k`, hence for every speed-test
iteration, each of which calls `rehydrate`. -/
theorem speed_rehydrate_buffer_bounds (provide : ℕ → List ℕ)
    (desired bytes_per_input k : ℕ) (hbpi : 0 < bytes_per_input)
    (hlen : ∀ j, (provide j).length = bytes_per_input) :
    desired ≤ (Speed.rehydrate provide desired k).1.length ∧
    (Speed.rehydrate provide desired k).1.length < desired + bytes_per_input :=
  rehydrateGo_bounds provide desired bytes_per_input hbpi hlen
    (desired + 1) k [] (by simp) (by simp; omega)

/-- C8 witness: a provider of 2-byte slices and a desired size of 5 yields a
6-byte buffer — within `[5, 5 + 2)`. -/
theorem speed_rehydrate_buffer_bounds_witness :
    5 ≤ (Speed.rehydrate (fun _ => [7, 7]) 5 0).1.length ∧
    (Speed.rehydrate (fun _ => [7, 7]) 5 0).1.length < 5 + 2 :=
  speed_rehydrate_buffer_bounds (fun _ => [7, 7]) 5 2 0 (by decide) (fun _ => rfl)

/-! ## C9 — bitwise correlation sample vectors stay aligned -/

/-- Indexing a range-map list. -/
theorem getD_map_range (f : ℕ → List ℚ) (N i : ℕ) (h : i < N) :
    ((List.range N).map f).getD i [] = f i := by
  simp [List.getD_eq_getElem?_getD, List.getElem?_map, List.getElem?_range, h]

/-- Indexing a `zipWith (· ++ ·)` of two lists in bounds. -/
theorem getD_zipWith_append : ∀ (l1 l2 : List (List ℚ)) (i : ℕ),
    i < l1.length → i < l2.length →
    (List.zipWith (· ++ ·) l1 l2).getD i [] = l1.getD i [] ++ l2.getD i []
  | [], _, _, h1, _ => absurd h1 (by simp)
  | _ :: _, [], _, _, h2 => absurd h2 (by simp)
  | _ :: _, _ :: _, 0, _, _ => rfl
  | _ :: as, _ :: bs, i + 1, h1, h2 =>
    getD_zipWith_append as bs i (by simpa using h1) (by simpa using h2)

/-- One `run` call keeps the 64-vector shape and extends every per-bit vector
by exactly the batch size. -/
theorem bitwise_run_step (t : Bitwise.Test) (hashes : List ℕ) (N : ℕ)
    (hlen : t.bit_values.length = N) :
    (t.run hashes).bit_values.length = N ∧
    ∀ i, i < N → ((t.run hashes).bit_values.getD i []).length
      = (t.bit_values.getD i []).length + hashes.length := by
  have hext_len : (Bitwise.extract_bit_values_from_hashes N hashes).length = N := by
    simp [Bitwise.extract_bit_values_from_hashes]
  constructor
  · simp [Bitwise.Test.run, List.length_zipWith, hlen, hext_len]
  · intro i hi
    have h1 : (t.run hashes).bit_values.getD i []
        = t.bit_values.getD i [] ++
          (Bitwise.extract_bit_values_from_hashes t.bit_values.length hashes).getD i [] :=
      getD_zipWith_append _ _ i (by omega) (by rw [hlen]; omega)
    rw [h1, List.length_append]
    have h2 : (Bitwise.extract_bit_values_from_hashes t.bit_values.length hashes).getD i []
        = hashes.map (fun hash => (((hash >>> i) % 2 : ℕ) : ℚ)) := by
      rw [hlen]
      exact getD_map_range _ N i hi
    rw [h2, List.length_map]

/-- Invariant of any sequence of `run` calls. -/
theorem bitwise_run_invariant (N : ℕ) : ∀ (hss : List (List ℕ)) (t : Bitwise.Test),
    t.bit_values.length = N →
    (hss.foldl Bitwise.Test.run t).bit_values.length = N ∧
    ∀ i, i < N → ((hss.foldl Bitwise.Test.run t).bit_values.getD i []).length
      = (t.bit_values.getD i []).length + (hss.map List.length).sum
  | [], t, hlen => ⟨hlen, fun i _ => by simp⟩
  | hs :: rest, t, hlen => by
    have hstep := bitwise_run_step t hs N hlen
    have hrest := bitwise_run_invariant N rest (t.run hs) hstep.1
    refine ⟨hrest.1, fun i hi => ?_⟩
    rw [show ((hs :: rest).foldl Bitwise.Test.run t) = (rest.foldl Bitwise.Test.run (t.run hs))
        from rfl, hrest.2 i hi, hstep.2 i hi]
    simp [List.map_cons, List.sum_cons]
    omega

/-- A `None` correlation on an aligned, nonempty pair can only come from the
zero-denominator branch, never the length-mismatch/empty guard. -/
theorem correlation_none_on_aligned (a b : List ℚ) (hlen : a.length = b.length)
    (hne : a.isEmpty = false) (h : correlation a b = none) :
    ratSqrt (((a.length : ℚ) * (a.map (fun x => x ^ 2)).sum - a.sum ^ 2) *
      ((a.length : ℚ) * (b.map (fun x => x ^ 2)).sum - b.sum ^ 2)) = 0 := by
  simp only [correlation] at h
  rw [if_neg (by simp [hlen, hne])] at h
  by_cases hd : ratSqrt (((a.length : ℚ) * (a.map (fun x => x ^ 2)).sum - a.sum ^ 2) *
      ((a.length : ℚ) * (b.map (fun x => x ^ 2)).sum - b.sum ^ 2)) = 0
  · exact hd
  · rw [if_neg hd] at h
    exact absurd h (by simp)

/-- C9: after any sequence of `run` calls on a fresh bitwise correlation test
with `N` bit positions, every per-bit sample vector has length equal to the
total number of iterations accumulated across all calls (each call's batch
contributes its size to every position); consequently all pairs are aligned
and the length-mismatch no-result case of Pearson correlation cannot occur
inside `results()` — a `None` correlation there can only arise from the
zero-variance (zero denominator) branch, or from all vectors being empty. -/
theorem bitwise_sample_vectors_aligned (N : ℕ) (threshold : ℚ)
    (hss : List (List ℕ)) :
    (∀ i, i < N →
      ((hss.foldl Bitwise.Test.run (Bitwise.Test.new N threshold)).bit_values.getD i []).length
        = (hss.map List.length).sum) ∧
    (∀ i j, i < N → j < N →
      ((hss.foldl Bitwise.Test.run (Bitwise.Test.new N threshold)).bit_values.getD i []).length
        = ((hss.foldl Bitwise.Test.run (Bitwise.Test.new N threshold)).bit_values.getD j []).length) ∧
    (∀ i j, i < N → j < N →
      ((hss.foldl Bitwise.Test.run (Bitwise.Test.new N threshold)).bit_values.getD i []).isEmpty = false →
      correlation
          ((hss.foldl Bitwise.Test.run (Bitwise.Test.new N threshold)).bit_values.getD i [])
          ((hss.foldl Bitwise.Test.run (Bitwise.Test.new N threshold)).bit_values.getD j []) = none →
      ratSqrt
        (((((hss.foldl Bitwise.Test.run (Bitwise.Test.new N threshold)).bit_values.getD i []).length : ℚ) *
            (((hss.foldl Bitwise.Test.run (Bitwise.Test.new N threshold)).bit_values.getD i []).map
              (fun x => x ^ 2)).sum -
            ((hss.foldl Bitwise.Test.run (Bitwise.Test.new N threshold)).bit_values.getD i []).sum ^ 2) *
          ((((hss.foldl Bitwise.Test.run (Bitwise.Test.new N threshold)).bit_values.getD i []).length : ℚ) *
            (((hss.foldl Bitwise.Test.run (Bitwise.Test.new N threshold)).bit_values.getD j []).map
              (fun x => x ^ 2)).sum -
            ((hss.foldl Bitwise.Test.run (Bitwise.Test.new N threshold)).bit_values.getD j []).sum ^ 2)) = 0) := by
  have hinv := bitwise_run_invariant N hss (Bitwise.Test.new N threshold)
    (by simp [Bitwise.Test.new])
  have hbase : ∀ i, i < N →
      ((Bitwise.Test.new N threshold).bit_values.getD i []).length = 0 := by
    intro i hi
    rw [show (Bitwise.Test.new N threshold).bit_values = List.replicate N [] from rfl]
    rw [List.getD_eq_getElem?_getD, List.getElem?_replicate]
    simp [hi]
  have hlen : ∀ i, i < N →
      ((hss.foldl Bitwise.Test.run (Bitwise.Test.new N threshold)).bit_values.getD i []).length
        = (hss.map List.length).sum := by
    intro i hi
    rw [hinv.2 i hi, hbase i hi, Nat.zero_add]
  refine ⟨hlen, fun i j hi hj => by rw [hlen i hi, hlen j hj], ?_⟩
  intro i j hi hj hne hcorr
  exact correlation_none_on_aligned _ _ (by rw [hlen i hi, hlen j hj]) hne hcorr

/-- C9 witness: two batches of sizes 2 and 1 on a 2-bit test give every
per-bit vector length 3. -/
theorem bitwise_sample_vectors_aligned_witness :
    ((([[0, 1], [2]] : List (List ℕ)).foldl Bitwise.Test.run
        (Bitwise.Test.new 2 (1/2))).bit_values.getD 0 []).length
      = (([[0, 1], [2]] : List (List ℕ)).map List.length).sum :=
  (bitwise_sample_vectors_aligned 2 (1/2) [[0, 1], [2]]).1 0 (by decide)

/-! ## C4 — avalanche results: fractions, biases, maximum and verdict -/

/-- Accumulator lemma for the embedded `max_by_key` fold: starting from
`some b`, the fold yields an element of `b :: l` whose key bounds `b`'s and
every list element's key. -/
theorem foldl_max_step_some : ∀ (l : List (ℕ × ℚ)) (b : ℕ × ℚ),
    ∃ c, l.foldl
      (fun best p =>
        match best with
        | none => some p
        | some b => if b.2 ≤ p.2 then some p else some b)
      (some b) = some c ∧ (c = b ∨ c ∈ l) ∧ b.2 ≤ c.2 ∧ ∀ q ∈ l, q.2 ≤ c.2
  | [], b => ⟨b, rfl, Or.inl rfl, le_refl _, fun q hq => absurd hq (by simp)⟩
  | p :: rest, b => by
    rw [List.foldl_cons]
    by_cases hbp : b.2 ≤ p.2
    · obtain ⟨c, hc, hmem, hle, hmax⟩ := foldl_max_step_some rest p
      refine ⟨c, ?_, ?_, le_trans hbp hle, ?_⟩
      · show List.foldl _ (if b.2 ≤ p.2 then some p else some b) rest = some c
        rw [if_pos hbp]
        exact hc
      · rcases hmem with h | h
        · exact Or.inr (by simp [h])
        · exact Or.inr (by simp [h])
      · intro q hq
        rcases List.mem_cons.mp hq with h | h
        · rw [h]; exact hle
        · exact hmax q h
    · obtain ⟨c, hc, hmem, hle, hmax⟩ := foldl_max_step_some rest b
      refine ⟨c, ?_, ?_, hle, ?_⟩
      · show List.foldl _ (if b.2 ≤ p.2 then some p else some b) rest = some c
        rw [if_neg hbp]
        exact hc
      · rcases hmem with h | h
        · exact Or.inl h
        · exact Or.inr (by simp [h])
      · intro q hq
        rcases List.mem_cons.mp hq with h | h
        · rw [h]
          exact le_trans (le_of_lt (lt_of_not_le hbp)) hle
        · exact hmax q h

/-- On a nonempty list, `max_by_key` returns a member whose key is maximal. -/
theorem max_by_key_spec (l : List (ℕ × ℚ)) (hne : l ≠ []) :
    ∃ c, Sac.max_by_key l = some c ∧ c ∈ l ∧ ∀ q ∈ l, q.2 ≤ c.2 := by
  cases l with
  | nil => exact absurd rfl hne
  | cons p rest =>
    obtain ⟨c, hc, hmem, hle, hmax⟩ := foldl_max_step_some rest p
    refine ⟨c, hc, ?_, ?_⟩
    · rcases hmem with h | h
      · simp [h]
      · simp [h]
    · intro q hq
      rcases List.mem_cons.mp hq with h | h
      · rw [h]; exact hle
      · exact hmax q h

/-- Unfolding of `results` through `bitsList`. -/
theorem sac_results_eq (t : Sac.Test) :
    t.results =
      match Sac.max_by_key t.bitsList with
      | none => .error "there will always be at least one result"
      | some (index, max_bias) =>
        .ok { succeeded := max_bias ≤ t.max_deviance
              max_bias := (index, max_bias)
              bit_bias_offsets := t.bitsList } := rfl

/-- Length of the bias list. -/
theorem bitsList_length (t : Sac.Test) :
    t.bitsList.length = t.bit_flips.length := by
  simp [Sac.Test.bitsList]

/-- In-range entries of the bias list are index-bias pairs. -/
theorem bitsList_getElem? (t : Sac.Test) (i : ℕ) (h : i < t.bit_flips.length) :
    t.bitsList[i]? = some (i, t.biasAt i) := by
  simp [Sac.Test.bitsList, Sac.Test.biasAt, List.getElem?_map, List.getElem?_enum,
    List.getElem?_eq_getElem, h, List.getD_eq_getElem?_getD]

/-- C4: for an avalanche state over 64 bit positions with at least one
experiment run, `results` succeeds and returns: the per-position bias list
`(i, |flips_i / (total_experiments × iterations_per_experiment) − 1/2|)`, a
maximum-bias entry that is one of the positions and bounds every position's
bias, and a success flag that holds exactly when every position's bias is at
most `max_deviance` (equivalently, when the maximum bias is). -/
theorem avalanche_results_spec (t : Sac.Test) (hlen : t.bit_flips.length = 64)
    (hexp : 0 < t.total_experiments) (hipe : 0 < t.iterations_per_experiment) :
    ∃ r, t.results = .ok r ∧
      r.bit_bias_offsets.length = 64 ∧
      (∀ i, i < 64 → r.bit_bias_offsets.getD i (0, 0) = (i, t.biasAt i)) ∧
      r.max_bias.1 < 64 ∧
      r.max_bias.2 = t.biasAt r.max_bias.1 ∧
      (∀ i, i < 64 → t.biasAt i ≤ r.max_bias.2) ∧
      (r.succeeded = true ↔ ∀ i, i < 64 → t.biasAt i ≤ t.max_deviance) := by
  have hblen : t.bitsList.length = 64 := by rw [bitsList_length, hlen]
  have hne : t.bitsList ≠ [] := by
    intro h
    rw [h] at hblen
    exact absurd hblen (by simp)
  have hmemchar : ∀ c ∈ t.bitsList, c = (c.1, t.biasAt c.1) ∧ c.1 < 64 := by
    intro c hc
    obtain ⟨i0, hi0, hget⟩ := List.mem_iff_getElem.mp hc
    have h1 := bitsList_getElem? t i0 (by omega)
    rw [List.getElem?_eq_getElem hi0, hget] at h1
    have h2 := Option.some.inj h1
    constructor
    · rw [h2]
    · rw [h2]
      omega
  have hmementry : ∀ i, i < 64 → (i, t.biasAt i) ∈ t.bitsList := by
    intro i hi
    have h1 := bitsList_getElem? t i (by omega)
    exact List.mem_iff_getElem.mpr ⟨i, by omega, by
      have h2 := List.getElem?_eq_getElem (show i < t.bitsList.length by omega)
      rw [h1] at h2
      exact (Option.some.inj h2).symm⟩
  obtain ⟨c, hmk, hmem, hmax⟩ := max_by_key_spec t.bitsList hne
  obtain ⟨hc_eq, hc_lt⟩ := hmemchar c hmem
  obtain ⟨ci, cv⟩ := c
  simp only at hc_eq hc_lt
  have hcv : cv = t.biasAt ci := congrArg Prod.snd hc_eq
  refine ⟨{ succeeded := cv ≤ t.max_deviance, max_bias := (ci, cv),
            bit_bias_offsets := t.bitsList }, ?_, hblen, ?_, hc_lt, hcv, ?_, ?_⟩
  · rw [sac_results_eq, hmk]
  · intro i hi
    rw [List.getD_eq_getElem?_getD, bitsList_getElem? t i (by omega)]
    rfl
  · intro i hi
    exact hmax (i, t.biasAt i) (hmementry i hi)
  · simp only [decide_eq_true_eq]
    constructor
    · intro hle i hi
      exact le_trans (hmax (i, t.biasAt i) (hmementry i hi)) hle
    · intro hall
      rw [hcv]
      exact hall ci hc_lt

/-- C4 witness: a two-experiment state with concrete tallies — three of the
64 positions have been given nonzero flip counts. -/
theorem avalanche_results_spec_witness :
    (List.replicate 64 (5 : ℕ)).length = 64 ∧
    ∃ r, Sac.Test.results
        { bit_flips := List.replicate 64 5, iterations_per_experiment := 5,
          total_experiments := 2, max_deviance := 1/10 } = .ok r ∧
      r.bit_bias_offsets.length = 64 ∧
      (∀ i, i < 64 → r.bit_bias_offsets.getD i (0, 0)
        = (i, Sac.Test.biasAt
            { bit_flips := List.replicate 64 5, iterations_per_experiment := 5,
              total_experiments := 2, max_deviance := 1/10 } i)) ∧
      r.max_bias.1 < 64 ∧
      r.max_bias.2 = Sac.Test.biasAt
          { bit_flips := List.replicate 64 5, iterations_per_experiment := 5,
            total_experiments := 2, max_deviance := 1/10 } r.max_bias.1 ∧
      (∀ i, i < 64 → Sac.Test.biasAt
          { bit_flips := List.replicate 64 5, iterations_per_experiment := 5,
            total_experiments := 2, max_deviance := 1/10 } i ≤ r.max_bias.2) ∧
      (r.succeeded = true ↔ ∀ i, i < 64 → Sac.Test.biasAt
          { bit_flips := List.replicate 64 5, iterations_per_experiment := 5,
            total_experiments := 2, max_deviance := 1/10 } i ≤ 1/10) :=
  ⟨by simp,
    avalanche_results_spec
      { bit_flips := List.replicate 64 5, iterations_per_experiment := 5,
        total_experiments := 2, max_deviance := 1/10 }
      (by simp) (by decide) (by decide)⟩

/-! ## C2 — verdict handling of statistical indeterminacy -/

/-- C2 counterexample: a reachable bitwise correlation state (one `run` of a
single all-zero digest on a 2-bit test) has zero-variance sample vectors, so
every off-diagonal correlation is `None` — and the verdict reducer panics
(modelled `Except.error`) instead of producing any verdict, Inconclusive
included. -/
theorem verdict_indeterminacy_counterexample :
    ((Bitwise.Test.new 2 (1/2)).run [0]).report_result
      = .error "one of the correlations was None" := by
  have hstate : (Bitwise.Test.new 2 (1/2)).run [0]
      = { bit_values := [[0], [0]], threshold := 1/2 } := by
    simp [Bitwise.Test.new, Bitwise.Test.run, Bitwise.extract_bit_values_from_hashes,
      List.range_succ]
  have hcorr : correlation [(0 : ℚ)] [(0 : ℚ)] = none := by
    simp [correlation, ratSqrt]
  rw [hstate]
  simp [Bitwise.Test.report_result, Bitwise.Test.offDiagonal, List.range_succ, hcorr]

/-- C2 (amended): the chi-squared verdict reducer does have a dedicated
branch for 'no result' — a `None` p-value is mapped to `Inconclusive`, never
to `Pass` or `Fail`, and a present p-value is never mapped to
`Inconclusive`.  The bitwise correlation report path has no such branch: it
panics (aborts) both when no samples have been accumulated and when any
off-diagonal correlation is `None` (zero-variance inputs), rather than
producing an Inconclusive verdict. -/
theorem verdict_indeterminacy_amended :
    (∀ threshold : ℚ, Gof.report_result none threshold = .Inconclusive) ∧
    (∀ (p : Flt) (threshold : ℚ), Gof.report_result (some p) threshold ≠ .Inconclusive) ∧
    (∀ t : Bitwise.Test, (t.bit_values.headD []).isEmpty = true →
      t.report_result
        = .error "a report can only be generated when at least one test has been run!") ∧
    (∀ t : Bitwise.Test, (t.bit_values.headD []).isEmpty = false →
      t.offDiagonal.any (fun p => p.2.isNone) = true →
      t.report_result = .error "one of the correlations was None") := by
  refine ⟨fun _ => rfl, ?_, ?_, ?_⟩
  · intro p threshold
    simp only [Gof.report_result]
    by_cases h : fgt p (some threshold) = true
    · rw [if_pos h]
      simp
    · rw [if_neg h]
      simp
  · intro t hempty
    simp only [Bitwise.Test.report_result]
    rw [if_pos hempty]
  · intro t hempty hnone
    simp only [Bitwise.Test.report_result]
    rw [if_neg (by simpa using hempty), if_pos hnone]

/-- C2 witness: the chi-squared Inconclusive branch at threshold `1/20`, and
the bitwise panic branch at the empty fresh test. -/
theorem verdict_indeterminacy_amended_witness :
    Gof.report_result none (1/20) = .Inconclusive ∧
    (Bitwise.Test.new 64 (1/2)).report_result
      = .error "a report can only be generated when at least one test has been run!" :=
  ⟨verdict_indeterminacy_amended.1 (1/20),
    verdict_indeterminacy_amended.2.2.1 (Bitwise.Test.new 64 (1/2)) (by
      simp [Bitwise.Test.new, List.replicate_succ])⟩

end Bitbelay
